import Mathlib

/-!
Shallow embedding of the algorithmic core of the nexus-defi-engine repository:
the strategy engine (`StrategyParser`, `IndicatorCalculator`, `StrategyExecutor`,
`PnLTracker`) and the DeFi engine (`YieldAggregator`, `RebalancingEngine`).

Conventions of the embedding:
- JavaScript numbers are modelled as `ℚ`.  All the claims under study concern
  exact rational arithmetic; theorems that involve a division carry an explicit
  nonzero hypothesis where JavaScript would produce `Infinity`/`NaN`.
- A JavaScript out-of-range array read (`arr[i]` with `i < 0` or `i ≥ length`)
  yields `undefined`, and arithmetic on it yields `NaN`, whose comparisons are
  all false.  Such reads are modelled with `Option`; the `none` case takes the
  branch a `NaN` comparison would take in the source (namely `false`).
- `Math.round` rounds half away from zero towards positive infinity, which is
  exactly Mathlib's `round` on `ℚ`.
- Strings are lists of characters; the regular-expression searches of
  `StrategyParser` are embedded as leftmost-match scanning functions, one per
  regex, matching the JavaScript semantics (leftmost position, alternatives
  tried in order with backtracking, greedy `\s*` and `\d+`).
-/

/-! ## Generic helpers -/

/-- JavaScript array read `l[i]` with an `Int` index: `none` models `undefined`. -/
def getAtI (l : List ℚ) (i : ℤ) : Option ℚ :=
  if 0 ≤ i then l.get? i.toNat else none

/-- `Math.round(q * 100) / 100`, i.e. rounding to two decimal places. -/
def jsRound2 (q : ℚ) : ℚ := ((round (q * 100) : ℤ) : ℚ) / 100

/-- The `n` most recent elements of a list (all of it when it is shorter). -/
def lastN (n : ℕ) (l : List ℚ) : List ℚ := l.drop (l.length - n)

/-! ## IndicatorCalculator -/

/-- The consecutive deltas `prices[i] - prices[i-1]` of a price sequence,
as scanned by the `for` loop in `calculateRSI`. -/
def deltas (l : List ℚ) : List ℚ := List.zipWith (fun p n => n - p) l l.tail

/-- The `avgGain` local of `calculateRSI`: the positive deltas of the last
`period + 1` prices, summed (the source accumulates them in one pass over the
loop; summing the filtered delta list performs the same additions), divided by
`period`. -/
def rsiAvgGain (prices : List ℚ) (period : ℕ) : ℚ :=
  ((deltas (prices.drop (prices.length - (period + 1)))).filter
    (fun c => decide (0 < c))).sum / period

/-- The `avgLoss` local of `calculateRSI`: the absolute values of the
non-positive deltas of the last `period + 1` prices (the loop's `else` branch
adds `Math.abs(change)`), summed, divided by `period`. -/
def rsiAvgLoss (prices : List ℚ) (period : ℕ) : ℚ :=
  (((deltas (prices.drop (prices.length - (period + 1)))).filter
    (fun c => decide (¬ 0 < c))).map (fun c => |c|)).sum / period

/-- `IndicatorCalculator.calculateRSI`: 50 on insufficient history, 100 when
the average loss is zero, otherwise `100 - 100 / (1 + avgGain / avgLoss)`
rounded to two decimals. -/
def calculateRSI (prices : List ℚ) (period : ℕ) : ℚ :=
  if prices.length < period + 1 then 50
  else
    let avgGain := rsiAvgGain prices period
    let avgLoss := rsiAvgLoss prices period
    if avgLoss = 0 then 100
    else
      let rs := avgGain / avgLoss
      let rsi := 100 - 100 / (1 + rs)
      jsRound2 rsi

/-- `IndicatorCalculator.calculateSMA`: mean of the last `period` prices,
falling back to the latest price when there are fewer samples than `period`.
(`prices[prices.length - 1]` on an empty array is `undefined` in the source;
the `getLastD 0` default is never exercised by the theorems below.) -/
def calculateSMA (prices : List ℚ) (period : ℕ) : ℚ :=
  if prices.length < period then prices.getLastD 0
  else (prices.drop (prices.length - period)).sum / period

/-- `IndicatorCalculator.calculateEMA`: seeded with the SMA of the first
`period` prices, then the recurrence `ema = (price - ema) * m + ema` with
`m = 2 / (period + 1)` over the remaining prices in order. -/
def calculateEMA (prices : List ℚ) (period : ℕ) : ℚ :=
  if prices.length < period then prices.getLastD 0
  else
    let multiplier : ℚ := 2 / ((period : ℚ) + 1)
    (prices.drop period).foldl
      (fun ema p => (p - ema) * multiplier + ema)
      (calculateSMA (prices.take period) period)

/-- Result record of `IndicatorCalculator.calculateMACD`. -/
structure MACDResult where
  macd : ℚ
  signal : ℚ
  histogram : ℚ
deriving DecidableEq

/-- `IndicatorCalculator.calculateMACD`: `EMA(12) - EMA(26)`, with the signal
line approximated as `macd * 0.9` (a documented simplification in the source). -/
def calculateMACD (prices : List ℚ) : MACDResult :=
  let ema12 := calculateEMA prices 12
  let ema26 := calculateEMA prices 26
  let macd := ema12 - ema26
  let signal := macd * 0.9
  let histogram := macd - signal
  ⟨macd, signal, histogram⟩

/-- The SMA and population variance of the last `period` prices, as computed
inside `IndicatorCalculator.calculateBollingerBands`.  The bands themselves are
`sma ± stdDev * √variance`; the square root being irrational, the band
comparisons used by `checkCondition` are embedded below as the equivalent
sign-and-square comparisons (`bbAboveUpper` / `bbBelowLower`). -/
def bbMidVariance (prices : List ℚ) (period : ℕ) : ℚ × ℚ :=
  let sma := calculateSMA prices period
  let recentPrices := prices.drop (prices.length - period)
  let variance := ((recentPrices.map (fun p => (p - sma) ^ 2)).sum) / (period : ℚ)
  (sma, variance)

/-- `currentPrice > sma + 2 * √variance` (the upper-band test of
`checkCondition` with the default `stdDev = 2`), rendered with squares so that
it stays within `ℚ`: for `d = currentPrice - sma`, the test holds iff `d > 0`
and `d ^ 2 > 4 * variance`. -/
def bbAboveUpper (prices : List ℚ) (currentPrice : ℚ) : Bool :=
  let mv := bbMidVariance prices 20
  decide (0 < currentPrice - mv.1) && decide (4 * mv.2 < (currentPrice - mv.1) ^ 2)

/-- `currentPrice < sma - 2 * √variance` (the lower-band test of
`checkCondition`), rendered with squares as in `bbAboveUpper`. -/
def bbBelowLower (prices : List ℚ) (currentPrice : ℚ) : Bool :=
  let mv := bbMidVariance prices 20
  decide (0 < mv.1 - currentPrice) && decide (4 * mv.2 < (mv.1 - currentPrice) ^ 2)

/-! ## Strategy data structures -/

inductive CondType
  | price
  | indicator
  | time
  | volume
deriving DecidableEq

inductive IndicatorKind
  | RSI
  | MACD
  | BB
  | SMA
  | EMA
deriving DecidableEq

/-- The condition operator: `<`, `>`, `=`, `crosses_above`, `crosses_below`. -/
inductive CondOp
  | lt
  | gt
  | eq
  | crossesAbove
  | crossesBelow
deriving DecidableEq

inductive Timeframe
  | m1
  | m5
  | m15
  | h1
  | h4
  | d1
deriving DecidableEq

structure StrategyCondition where
  type : CondType
  indicator : Option IndicatorKind
  condition : CondOp
  value : ℚ
  timeframe : Option Timeframe
deriving DecidableEq

inductive ExecutionType
  | market
  | limit
deriving DecidableEq

structure ParsedStrategy where
  name : String
  asset : String
  entry : StrategyCondition
  exit : StrategyCondition
  maxPosition : ℚ
  riskPercent : ℚ
  executionType : ExecutionType
  stopLoss : Option ℚ
  takeProfit : Option ℚ
deriving DecidableEq

/-! ## StrategyExecutor -/

/-- `StrategyExecutor.checkCondition`.  The `price` branch reads
`priceHistory[priceHistory.length - 2]`; when that read is out of range the
source computes with `NaN` and every comparison (hence the whole check) is
false, which the `none` branch reproduces.  The division by the reference
price is `ℚ`-division; theorems about this branch assume that price nonzero. -/
def checkCondition (cond : StrategyCondition) (currentPrice : ℚ)
    (priceHistory : List ℚ) : Bool :=
  match cond.type with
  | CondType.price =>
    match getAtI priceHistory ((priceHistory.length : ℤ) - 2) with
    | none => false
    | some prev =>
      let change := (currentPrice - prev) / prev * 100
      match cond.condition with
      | CondOp.lt => decide (change < -cond.value)
      | CondOp.gt => decide (cond.value < change)
      | _ => false
  | CondType.indicator =>
    match cond.indicator with
    | some IndicatorKind.RSI =>
      let rsi := calculateRSI priceHistory 14
      match cond.condition with
      | CondOp.lt => decide (rsi < cond.value)
      | CondOp.gt => decide (cond.value < rsi)
      | CondOp.crossesAbove =>
        let prevRSI := calculateRSI priceHistory.dropLast 14
        decide (prevRSI < cond.value) && decide (cond.value < rsi)
      | CondOp.crossesBelow =>
        let prevRSI2 := calculateRSI priceHistory.dropLast 14
        decide (cond.value < prevRSI2) && decide (rsi < cond.value)
      | _ => false
    | some IndicatorKind.MACD =>
      decide (0 < (calculateMACD priceHistory).histogram)
    | some IndicatorKind.BB =>
      if 0 < cond.value then bbAboveUpper priceHistory currentPrice
      else bbBelowLower priceHistory currentPrice
    | _ => false
  | _ => false

/-- The per-asset price-history map of `StrategyExecutor`, as a total function
with default `[]` (the source lazily initialises missing keys to `[]`). -/
def initPriceHistory : String → List ℚ := fun _ => []

/-- `StrategyExecutor.updatePriceHistory`: append the price, then drop the
oldest sample when the history exceeds 200 entries (`history.shift()`). -/
def updatePriceHistory (state : String → List ℚ) (asset : String) (price : ℚ) :
    String → List ℚ :=
  fun a =>
    if a = asset then
      let history := state asset ++ [price]
      if 200 < history.length then history.tail else history
    else state a

/-- A sequence of `updatePriceHistory` calls, applied in order. -/
def runUpdates (state : String → List ℚ) : List (String × ℚ) → (String → List ℚ)
  | [] => state
  | c :: cs => runUpdates (updatePriceHistory state c.1 c.2) cs

/-- The prices pushed for one asset by a call sequence, in arrival order. -/
def pricesFor (asset : String) (calls : List (String × ℚ)) : List ℚ :=
  (calls.filter (fun c => c.1 == asset)).map Prod.snd

/-! ## PnLTracker -/

inductive TradeType
  | buy
  | sell
deriving DecidableEq

inductive TradeStatus
  | pending
  | executed
  | failed
deriving DecidableEq

structure Trade where
  id : String
  strategy : String
  timestamp : ℤ
  type : TradeType
  asset : String
  price : ℚ
  amount : ℚ
  value : ℚ
  txSignature : Option String
  status : TradeStatus
deriving DecidableEq

/-- Performance record of `PnLTracker.calculatePerformance`.  The source's
`sharpeRatio` field (`averageTrade / Math.sqrt(variance)`) is irrational-valued
and is not part of this embedding; no claim under study concerns it. -/
structure StrategyPerformance where
  strategyName : String
  totalTrades : ℕ
  winRate : ℚ
  totalPnL : ℚ
  totalPnLPercent : ℚ
  averageTrade : ℚ
  maxDrawdown : ℚ
deriving DecidableEq

/-- The per-pair pnls collected by the `for (i += 2)` loop of
`calculatePerformance`: trades are paired by index parity, a pair contributes
`(sell.price - buy.price) * buy.amount` only when it is literally
`(buy, sell)`, and a trailing unpaired trade is skipped. -/
def pairPnLs : List Trade → List ℚ
  | b :: s :: rest =>
    (if b.type = TradeType.buy ∧ s.type = TradeType.sell
      then [(s.price - b.price) * b.amount] else []) ++ pairPnLs rest
  | _ => []

/-- The max-drawdown loop of `calculatePerformance`: running cumulative pnl,
running peak, drawdown `(peak - cumulative) / max(peak, 1) * 100`, keeping the
largest drawdown seen. -/
def drawdownLoop : List ℚ → ℚ → ℚ → ℚ → ℚ
  | [], _, _, maxDD => maxDD
  | pnl :: rest, peak, cumulative, maxDD =>
    let cum := cumulative + pnl
    let pk := if peak < cum then cum else peak
    let dd := (pk - cum) / max pk 1 * 100
    drawdownLoop rest pk cum (if maxDD < dd then dd else maxDD)

/-- `PnLTracker.calculatePerformance` on the per-strategy ledger.  The
`trades[0]?.value || 1` denominator treats a zero first-trade value as 1
(JavaScript `||` on the falsy `0`). -/
def calculatePerformance (strategyName : String) (trades : List Trade) :
    StrategyPerformance :=
  if trades.length = 0 then ⟨strategyName, 0, 0, 0, 0, 0, 0⟩
  else
    let tradePnLs := pairPnLs trades
    let totalPnL := tradePnLs.sum
    let wins := (tradePnLs.filter (fun p => decide (0 < p))).length
    let completedTrades := trades.length / 2
    let winRate :=
      if 0 < completedTrades then ((wins : ℚ) / completedTrades) * 100 else 0
    let averageTrade :=
      if 0 < completedTrades then totalPnL / completedTrades else 0
    let maxDrawdown := drawdownLoop tradePnLs 0 0 0
    let firstValue :=
      match trades.head? with
      | some t => if t.value = 0 then 1 else t.value
      | none => 1
    ⟨strategyName, trades.length, winRate, totalPnL,
      totalPnL / firstValue * 100, averageTrade, maxDrawdown⟩

/-! ## YieldAggregator -/

inductive RiskLevel
  | low
  | medium
  | high
deriving DecidableEq

structure ProtocolYield where
  protocol : String
  pool : String
  apy : ℚ
  tvl : ℚ
  risk : RiskLevel
  token : String
  address : String
deriving DecidableEq

/-- The simulated snapshot returned by `YieldAggregator.fetchJupiterYields`. -/
def fetchJupiterYields : List ProtocolYield :=
  [⟨"Jupiter", "JLP Pool", 47.5, 285000000, RiskLevel.medium, "JLP",
      "JLP9i4FzxhwzSeLPaLLxzYrYxQPFHGCPWz2Y2fRQ1vW4"⟩,
   ⟨"Jupiter", "SOL-USDC Swap Pool", 12.3, 145000000, RiskLevel.low, "SOL-USDC",
      "Jupiter3dWmvG7Ly5qnqAyxAiYvk4YQ4uxxKDYKDvqHqhp52"⟩]

/-- The simulated snapshot returned by `YieldAggregator.fetchKaminoYields`. -/
def fetchKaminoYields : List ProtocolYield :=
  [⟨"Kamino", "SOL Multiply", 89.2, 78000000, RiskLevel.high, "SOL",
      "Kamino8ZPxZ7vT3p2fU4WYDhNKmLPqKJVqx9dPYFh3qR"⟩,
   ⟨"Kamino", "USDC Lend", 18.7, 156000000, RiskLevel.low, "USDC",
      "Kamino9KBPUhzYnpGZcJH4gYX8p6fU7WYDh8GvLPqK"⟩,
   ⟨"Kamino", "JitoSOL Multiply", 67.4, 45000000, RiskLevel.medium, "JitoSOL",
      "KaminoJitoSoLMPqGdg7K2XqyVbw4hY8p5fU7Wh"⟩]

/-- The simulated snapshot returned by `YieldAggregator.fetchMarinadeYields`. -/
def fetchMarinadeYields : List ProtocolYield :=
  [⟨"Marinade", "mSOL Stake Pool", 7.8, 1200000000, RiskLevel.low, "mSOL",
      "MarBmsSgKXdrN1egZf5sqe1TMai9K1rChYNDJgjq7aD"⟩]

/-- The simulated snapshot returned by `YieldAggregator.fetchRaydiumYields`. -/
def fetchRaydiumYields : List ProtocolYield :=
  [⟨"Raydium", "SOL-USDC", 23.4, 234000000, RiskLevel.medium, "RAY-LP",
      "RaydiumSoLUSdCpQP5fU7WYDhGvLPqKJVqx9dPYF"⟩,
   ⟨"Raydium", "RAY-SOL", 45.6, 89000000, RiskLevel.medium, "RAY-LP",
      "RaydiumRAYSoLQP7fU8WYDhNKmLPqKJVqx9dP"⟩,
   ⟨"Raydium", "USDC-USDT", 5.2, 567000000, RiskLevel.low, "RAY-LP",
      "RaydiumUSDCUSDTqKJVqx9dPYFh3qR8GvLPqK"⟩]

/-- `YieldAggregator.getAllYields`: the concatenation of all four snapshots. -/
def getAllYields : List ProtocolYield :=
  fetchJupiterYields ++ fetchKaminoYields ++ fetchMarinadeYields ++ fetchRaydiumYields

/-! ## RebalancingEngine -/

/-- The `riskMap` of `RebalancingEngine.calculateRiskScore`. -/
def riskMap : RiskLevel → ℚ
  | RiskLevel.low => 20
  | RiskLevel.medium => 50
  | RiskLevel.high => 80

/-- `RebalancingEngine.calculateRiskScore`:
`min(100, base + max(0, 20 - tvl/10,000,000) + (apy > 100 ? 15 : 0))`. -/
def calculateRiskScore (y : ProtocolYield) : ℚ :=
  let baseRisk := riskMap y.risk
  let tvlFactor := max 0 (20 - y.tvl / 10000000)
  let apyFactor : ℚ := if 100 < y.apy then 15 else 0
  min 100 (baseRisk + tvlFactor + apyFactor)

/-- `RebalancingEngine.calculateRiskAdjustedReturn`: `apy / (1 + score/100)`. -/
def calculateRiskAdjustedReturn (y : ProtocolYield) : ℚ :=
  y.apy / (1 + calculateRiskScore y / 100)

structure Position where
  protocol : String
  pool : String
  amount : ℚ
  value : ℚ
  apy : ℚ
deriving DecidableEq

/-- `RebalanceRecommendation`.  The source's `from` and `to` fields are Lean
keywords and are embedded as `src` and `target`; the `reasoning` field is a
formatted display string (`toFixed` rendering) and is not part of this
embedding. -/
structure RebalanceRecommendation where
  src : Position
  target : ProtocolYield
  amount : ℚ
  expectedGain : ℚ
deriving DecidableEq

inductive RiskTolerance
  | conservative
  | balanced
  | aggressive
deriving DecidableEq

/-- The `targetRisks` table of `RebalancingEngine.analyzePositions`. -/
def targetRisks : RiskTolerance → List RiskLevel
  | RiskTolerance.conservative => [RiskLevel.low]
  | RiskTolerance.balanced => [RiskLevel.low, RiskLevel.medium]
  | RiskTolerance.aggressive => [RiskLevel.low, RiskLevel.medium, RiskLevel.high]

/-- Stable insertion step for sorting descending by a key.  The source sorts
with the comparator `(a, b) => rar(b) - rar(a)` (descending risk-adjusted
return, stable under V8); no claim depends on the order of equal keys. -/
def insertRankedBy (key : ProtocolYield → ℚ) (y : ProtocolYield) :
    List ProtocolYield → List ProtocolYield
  | [] => [y]
  | z :: zs =>
    if key z < key y then y :: z :: zs else z :: insertRankedBy key y zs

/-- Stable insertion sort, descending by `key`. -/
def sortDescBy (key : ProtocolYield → ℚ) : List ProtocolYield → List ProtocolYield
  | [] => []
  | y :: ys => insertRankedBy key y (sortDescBy key ys)

/-- The body of the inner `for (targetYield of rankedYields)` loop of
`analyzePositions` for one position: the first ranked yield whose APY exceeds
the position's by more than 5 and whose protocol differs yields one
recommendation (then `break`); otherwise none.  The `allYields.find` guard
(`currentYield`) skips positions not present in the aggregated snapshot. -/
def recommendForPosition (allYields rankedYields : List ProtocolYield)
    (position : Position) : List RebalanceRecommendation :=
  match allYields.find? (fun y =>
      y.protocol == position.protocol && y.pool == position.pool) with
  | none => []
  | some _ =>
    match rankedYields.find? (fun t =>
        decide (5 < t.apy - position.apy) && (t.protocol != position.protocol)) with
    | none => []
    | some t =>
      [⟨position, t, position.amount * 0.5, position.value * (t.apy - position.apy) / 100⟩]

/-- `RebalancingEngine.analyzePositions`, parameterised by the aggregated
yield list that the source obtains from `this.aggregator.getAllYields()`. -/
def analyzePositionsWith (allYields : List ProtocolYield)
    (positions : List Position) (riskTolerance : RiskTolerance) :
    List RebalanceRecommendation :=
  let eligibleYields :=
    allYields.filter (fun y => (targetRisks riskTolerance).contains y.risk)
  let rankedYields := sortDescBy calculateRiskAdjustedReturn eligibleYields
  positions.flatMap (recommendForPosition allYields rankedYields)

/-- `RebalancingEngine.analyzePositions` with the engine's own yield data. -/
def analyzePositions (positions : List Position)
    (riskTolerance : RiskTolerance) : List RebalanceRecommendation :=
  analyzePositionsWith getAllYields positions riskTolerance

/-! ## StrategyParser: string scanning primitives

Each JavaScript regex used by the parser is embedded as a function that tests
a match at one position, together with `scanFirst`, which returns the leftmost
position at which the test succeeds — the semantics of `String.match`. -/

/-- `input.toLowerCase()` (ASCII, which covers every pattern the parser uses),
as a character list. -/
def jsToLower (s : String) : List Char := s.data.map Char.toLower

/-- JavaScript `String.includes`: substring test. -/
def containsSub (sub : List Char) : List Char → Bool
  | [] => sub.isEmpty
  | c :: rest => sub.isPrefixOf (c :: rest) || containsSub sub rest

/-- Consume a literal from the front, returning the remainder. -/
def lit (w : String) (cs : List Char) : Option (List Char) :=
  if w.data.isPrefixOf cs then some (cs.drop w.data.length) else none

/-- Consume `\s*` (greedy). -/
def skipWs : List Char → List Char
  | c :: rest =>
    if c = ' ' ∨ c = '\t' ∨ c = '\n' ∨ c = '\r' then skipWs rest else c :: rest
  | [] => []

/-- The numeric value of a digit string. -/
def natOfDigits (ds : List Char) : ℕ :=
  ds.foldl (fun n c => 10 * n + (c.toNat - 48)) 0

/-- Consume `\d+` (greedy), returning its value and the remainder. -/
def digitsAt (cs : List Char) : Option (ℕ × List Char) :=
  match cs.takeWhile Char.isDigit with
  | [] => none
  | ds => some (natOfDigits ds, cs.dropWhile Char.isDigit)

/-- Leftmost match: try `f` at every suffix, leftmost first. -/
def scanFirst (f : List Char → Option α) : List Char → Option α
  | [] => f []
  | c :: rest =>
    match f (c :: rest) with
    | some v => some v
    | none => scanFirst f rest

/-- A keyword followed by `\s*(\d+)`: the shared tail of the RSI patterns. -/
def kwNum (w : String) (cs : List Char) : Option ℕ :=
  (lit w cs).bind (fun r => (digitsAt (skipWs r)).map Prod.fst)

/-- `/rsi\s*(?:below|<|less than)\s*(\d+)/` at one position (alternatives in
order, each with the digit tail, as regex backtracking would try them). -/
def rsiBelowAt (cs : List Char) : Option ℕ :=
  (lit "rsi" cs).bind (fun r =>
    let r2 := skipWs r
    kwNum "below" r2 <|> kwNum "<" r2 <|> kwNum "less than" r2)

/-- `/rsi\s*(?:above|>|greater than)\s*(\d+)/` at one position. -/
def rsiAboveAt (cs : List Char) : Option ℕ :=
  (lit "rsi" cs).bind (fun r =>
    let r2 := skipWs r
    kwNum "above" r2 <|> kwNum ">" r2 <|> kwNum "greater than" r2)

/-- `/rsi\s*(?:crosses?)\s*(\d+)/` at one position (greedy optional `s`). -/
def rsiCrossesAt (cs : List Char) : Option ℕ :=
  (lit "rsi" cs).bind (fun r =>
    let r2 := skipWs r
    kwNum "crosses" r2 <|> kwNum "crosse" r2)

/-- `/(\d+)%/` at one position.  (`\d+` is greedy and every shorter prefix of
the digit run is followed by a digit, so only the full run can precede `%`.) -/
def percentAt (cs : List Char) : Option ℕ :=
  (digitsAt cs).bind (fun p => (lit "%" p.2).map (fun _ => p.1))

/-- `/(\d+)%\s*(?:of|risk)/` at one position. -/
def riskPercentAt (cs : List Char) : Option ℕ :=
  (digitsAt cs).bind (fun p =>
    (lit "%" p.2).bind (fun r =>
      let r2 := skipWs r
      ((lit "of" r2).map (fun _ => p.1)) <|> ((lit "risk" r2).map (fun _ => p.1))))

/-- `(?:at\s*)?(\d+)%`: the shared tail of the stop-loss and take-profit
patterns, with the optional `at` tried first (greedy `?`), then without. -/
def atNumPercent (cs : List Char) : Option ℕ :=
  ((lit "at" cs).bind (fun r => percentAt (skipWs r))) <|> percentAt cs

/-- `/stop\s*loss\s*(?:at\s*)?(\d+)%/` at one position. -/
def stopLossAt (cs : List Char) : Option ℕ :=
  (lit "stop" cs).bind (fun r =>
    (lit "loss" (skipWs r)).bind (fun r2 => atNumPercent (skipWs r2)))

/-- `/(?:take\s*profit|sell\s*when\s*up)\s*(?:at\s*)?(\d+)%/` at one position. -/
def takeProfitAt (cs : List Char) : Option ℕ :=
  ((lit "take" cs).bind (fun r =>
    (lit "profit" (skipWs r)).bind (fun r2 => atNumPercent (skipWs r2)))) <|>
  ((lit "sell" cs).bind (fun r =>
    (lit "when" (skipWs r)).bind (fun r2 =>
      (lit "up" (skipWs r2)).bind (fun r3 => atNumPercent (skipWs r3)))))

/-- `(?:,\d{3})*` (greedy): thousands groups after the leading digits of the
max-position number; returns the grouped digits (commas dropped, as
`match[1].replace(/,/g, '')` does) and the remainder. -/
def commaGroups : List Char → List Char × List Char
  | ',' :: c1 :: c2 :: c3 :: rest =>
    if c1.isDigit ∧ c2.isDigit ∧ c3.isDigit then
      let p := commaGroups rest
      (c1 :: c2 :: c3 :: p.1, p.2)
    else ([], ',' :: c1 :: c2 :: c3 :: rest)
  | cs => ([], cs)

/-- `(?:\.\d{2})?` (greedy): the optional two-digit fraction. -/
def fracPart : List Char → Option ℕ
  | '.' :: c1 :: c2 :: _ => if c1.isDigit ∧ c2.isDigit then some (natOfDigits [c1, c2]) else none
  | _ => none

/-- `/\$?\s*(\d+(?:,\d{3})*(?:\.\d{2})?)/` at one position, returning
`parseFloat` of the capture with commas removed.  The optional `\$` is tried
with the dollar sign first, then without. -/
def moneyAt (cs : List Char) : Option ℚ :=
  let num : List Char → Option ℚ := fun r =>
    match r.takeWhile Char.isDigit with
    | [] => none
    | ds =>
      let g := commaGroups (r.dropWhile Char.isDigit)
      let intValue : ℚ := natOfDigits (ds ++ g.1)
      some (match fracPart g.2 with
        | some fr => intValue + (fr : ℚ) / 100
        | none => intValue)
  ((lit "$" cs).bind (fun r => num (skipWs r))) <|> num (skipWs cs)

/-! ## StrategyParser: extraction cascade -/

/-- The parsing phase argument of `extractCondition`. -/
inductive Phase
  | entry
  | exit
deriving DecidableEq

/-- `StrategyParser.extractAsset`. -/
def extractAsset (input : List Char) : String :=
  if containsSub "sol".data input then "SOL/USDC"
  else if containsSub "btc".data input || containsSub "bitcoin".data input then "BTC/USD"
  else if containsSub "eth".data input || containsSub "ethereum".data input then "ETH/USD"
  else "SOL/USDC"

/-- The RSI block of `extractCondition`: when the text mentions `rsi` and one
of the three RSI regexes matches, build the RSI condition; otherwise fall
through (`none`). -/
def condRSI (input : List Char) : Option StrategyCondition :=
  if containsSub "rsi".data input then
    match scanFirst rsiBelowAt input <|> scanFirst rsiAboveAt input <|>
        scanFirst rsiCrossesAt input with
    | some v =>
      let c :=
        if containsSub "below".data input || containsSub "<".data input then CondOp.lt
        else if containsSub "above".data input || containsSub ">".data input then CondOp.gt
        else if containsSub "crosses".data input then CondOp.crossesAbove
        else CondOp.gt
      some ⟨CondType.indicator, some IndicatorKind.RSI, c, (v : ℚ), some Timeframe.m15⟩
    | none => none
  else none

/-- The price block of `extractCondition`. -/
def condPrice (input : List Char) : Option StrategyCondition :=
  if containsSub "price".data input || containsSub "drops".data input ||
      containsSub "rises".data input then
    match scanFirst percentAt input with
    | some v =>
      let c :=
        if containsSub "drop".data input || containsSub "below".data input
          then CondOp.lt else CondOp.gt
      some ⟨CondType.price, none, c, (v : ℚ), some Timeframe.m15⟩
    | none => none
  else none

/-- The MACD block of `extractCondition`. -/
def condMACD (input : List Char) : Option StrategyCondition :=
  if containsSub "macd".data input then
    some ⟨CondType.indicator, some IndicatorKind.MACD, CondOp.crossesAbove, 0,
      some Timeframe.h1⟩
  else none

/-- The Bollinger block of `extractCondition`. -/
def condBB (input : List Char) : Option StrategyCondition :=
  if containsSub "bollinger".data input || containsSub "bb".data input then
    some ⟨CondType.indicator, some IndicatorKind.BB,
      (if containsSub "upper".data input then CondOp.gt else CondOp.lt),
      (if containsSub "upper".data input then 2 else -2), some Timeframe.h1⟩
  else none

/-- `StrategyParser.extractCondition`: the RSI, price, MACD and Bollinger
blocks in order, then the default price threshold. -/
def extractCondition (input : List Char) (phase : Phase) : StrategyCondition :=
  match condRSI input <|> condPrice input <|> condMACD input <|> condBB input with
  | some c => c
  | none =>
    ⟨CondType.price, none,
      (match phase with | Phase.entry => CondOp.lt | Phase.exit => CondOp.gt),
      100, some Timeframe.m15⟩

/-- `StrategyParser.extractMaxPosition` (default 500). -/
def extractMaxPosition (input : List Char) : ℚ :=
  match scanFirst moneyAt input with
  | some v => v
  | none => 500

/-- `StrategyParser.extractRiskPercent` (default 10). -/
def extractRiskPercent (input : List Char) : ℚ :=
  match scanFirst riskPercentAt input with
  | some v => (v : ℚ)
  | none => 10

/-- `StrategyParser.extractStopLoss`. -/
def extractStopLoss (input : List Char) : Option ℚ :=
  (scanFirst stopLossAt input).map (fun n => (n : ℚ))

/-- `StrategyParser.extractTakeProfit`. -/
def extractTakeProfit (input : List Char) : Option ℚ :=
  (scanFirst takeProfitAt input).map (fun n => (n : ℚ))

/-- `StrategyParser.generateStrategyName`. -/
def generateStrategyName (input : String) : String :=
  let lower := jsToLower input
  let asset := extractAsset lower
  let assetSymbol := String.mk (asset.data.takeWhile (fun c => c != '/'))
  if containsSub "rsi".data lower then assetSymbol ++ " RSI Strategy"
  else if containsSub "macd".data lower then assetSymbol ++ " MACD Strategy"
  else if containsSub "bollinger".data lower then assetSymbol ++ " BB Strategy"
  else if containsSub "dca".data lower || containsSub "dollar cost".data lower then
    assetSymbol ++ " DCA Strategy"
  else assetSymbol ++ " Custom Strategy"

/-- `StrategyParser.parseStrategy`. -/
def parseStrategy (input : String) : ParsedStrategy :=
  let normalized := jsToLower input
  { name := generateStrategyName input
    asset := extractAsset normalized
    entry := extractCondition normalized Phase.entry
    exit := extractCondition normalized Phase.exit
    maxPosition := extractMaxPosition normalized
    riskPercent := extractRiskPercent normalized
    executionType :=
      if containsSub "limit".data normalized then ExecutionType.limit
      else ExecutionType.market
    stopLoss := extractStopLoss normalized
    takeProfit := extractTakeProfit normalized }

/-! ## Helper lemmas -/

/-- A list no longer than `n` is its own `n`-suffix. -/
theorem lastN_of_le (n : ℕ) (l : List ℚ) (h : l.length ≤ n) : lastN n l = l := by
  unfold lastN
  rw [Nat.sub_eq_zero_of_le h, List.drop_zero]

/-- The `n`-suffix has at most `n` elements. -/
theorem length_lastN_le (n : ℕ) (l : List ℚ) : (lastN n l).length ≤ n := by
  unfold lastN
  rw [List.length_drop]
  omega

/-- Taking an `n`-suffix, appending, and taking the `n`-suffix again is the
same as appending and taking the `n`-suffix once. -/
theorem lastN_lastN_append (n : ℕ) (l m : List ℚ) :
    lastN n (lastN n l ++ m) = lastN n (l ++ m) := by
  unfold lastN
  rw [← List.drop_append_of_le_length (by omega), List.drop_drop]
  congr 1
  simp only [List.length_drop, List.length_append]
  omega

/-- Filtering for positives gives a sum that is nonnegative. -/
theorem sum_filter_pos_nonneg (ds : List ℚ) :
    0 ≤ (ds.filter (fun c => decide (0 < c))).sum := by
  apply List.sum_nonneg
  intro x hx
  have := List.of_mem_filter hx
  simp only [decide_eq_true_eq] at this
  linarith

/-- A sum of absolute values is nonnegative. -/
theorem sum_map_abs_nonneg (ds : List ℚ) :
    0 ≤ (ds.map (fun c => |c|)).sum := by
  apply List.sum_nonneg
  intro x hx
  obtain ⟨c, _, rfl⟩ := List.mem_map.mp hx
  exact abs_nonneg c

/-- Two-decimal rounding keeps a value of `[0, 100)` inside `[0, 100]`. -/
theorem jsRound2_mem_Icc (q : ℚ) (h0 : 0 ≤ q) (h1 : q < 100) :
    0 ≤ jsRound2 q ∧ jsRound2 q ≤ 100 := by
  unfold jsRound2
  have hr0 : 0 ≤ round (q * 100) := by
    rw [round_eq]
    apply Int.floor_nonneg.mpr
    linarith
  have hr1 : round (q * 100) ≤ 10000 := by
    rw [round_eq]
    have : ⌊q * 100 + 1 / 2⌋ < 10001 := by
      apply Int.floor_lt.mpr
      push_cast
      linarith
    omega
  constructor
  · apply div_nonneg _ (by norm_num)
    exact_mod_cast hr0
  · rw [div_le_iff (by norm_num : (0 : ℚ) < 100)]
    have : ((round (q * 100) : ℤ) : ℚ) ≤ 10000 := by exact_mod_cast hr1
    linarith

/-- The RSI formula `100 - 100 / (1 + g / l)` lies in `[0, 100)` whenever the
average gain is nonnegative and the average loss positive. -/
theorem rsiFormula_bounds (g l : ℚ) (hg : 0 ≤ g) (hl : 0 < l) :
    0 ≤ 100 - 100 / (1 + g / l) ∧ 100 - 100 / (1 + g / l) < 100 := by
  have hrs : 0 ≤ g / l := div_nonneg hg hl.le
  have hden : (0 : ℚ) < 1 + g / l := by linarith
  have hle : 100 / (1 + g / l) ≤ 100 := div_le_self (by norm_num) (by linarith)
  have hpos : 0 < 100 / (1 + g / l) := div_pos (by norm_num) hden
  constructor <;> linarith

/-! ## Claim theorems -/

/-- C6: for every `ProtocolYield` with nonnegative `tvl`, the risk score
equals `base(risk) + max(0, 20 - tvl/10,000,000) + (15 if apy > 100 else 0)`
clamped to `[0, 100]`, where `base` maps low/medium/high to 20/50/80; in
particular the result always lies in `[0, 100]`. -/
theorem C6_calculateRiskScore (y : ProtocolYield) (htvl : 0 ≤ y.tvl) :
    calculateRiskScore y =
      max 0 (min 100 (riskMap y.risk + max 0 (20 - y.tvl / 10000000) +
        (if 100 < y.apy then 15 else 0))) ∧
    0 ≤ calculateRiskScore y ∧ calculateRiskScore y ≤ 100 := by
  have hbase : (20 : ℚ) ≤ riskMap y.risk := by
    cases y.risk <;> simp [riskMap] <;> norm_num
  have htf : (0 : ℚ) ≤ max 0 (20 - y.tvl / 10000000) := le_max_left 0 _
  have haf : (0 : ℚ) ≤ (if 100 < y.apy then (15 : ℚ) else 0) := by
    split <;> norm_num
  have hsum : (0 : ℚ) ≤ riskMap y.risk + max 0 (20 - y.tvl / 10000000) +
      (if 100 < y.apy then 15 else 0) := by linarith
  have hmin : (0 : ℚ) ≤ min 100 (riskMap y.risk + max 0 (20 - y.tvl / 10000000) +
      (if 100 < y.apy then 15 else 0)) := le_min (by norm_num) hsum
  refine ⟨?_, ?_, ?_⟩
  · unfold calculateRiskScore
    rw [max_eq_right hmin]
  · unfold calculateRiskScore
    exact le_min (by norm_num) hsum
  · unfold calculateRiskScore
    exact min_le_left _ _

/-- C6 witness: the risk-score bounds at the JLP Pool snapshot. -/
theorem C6_witness :
    0 ≤ calculateRiskScore ⟨"Jupiter", "JLP Pool", 47.5, 285000000,
        RiskLevel.medium, "JLP", "JLP9i4FzxhwzSeLPaLLxzYrYxQPFHGCPWz2Y2fRQ1vW4"⟩ ∧
    calculateRiskScore ⟨"Jupiter", "JLP Pool", 47.5, 285000000,
        RiskLevel.medium, "JLP", "JLP9i4FzxhwzSeLPaLLxzYrYxQPFHGCPWz2Y2fRQ1vW4"⟩ ≤ 100 :=
  (C6_calculateRiskScore _ (by norm_num)).2

/-- C10: for every price-type condition, `checkCondition` on a history with
fewer than 2 samples returns `false` (the out-of-range read of the
second-to-last sample never produces an error or a true signal), for every
condition operator and value. -/
theorem C10_checkCondition_short_history (cond : StrategyCondition)
    (cur : ℚ) (hs : List ℚ) (htype : cond.type = CondType.price)
    (hlen : hs.length < 2) :
    checkCondition cond cur hs = false := by
  obtain ⟨ty, ind, op, v, tf⟩ := cond
  simp only at htype
  subst htype
  have hneg : ¬ (0 ≤ (hs.length : ℤ) - 2) := by omega
  simp [checkCondition, getAtI, hneg]

/-- C10 witness: a `<` price condition on the one-sample history `[100]`. -/
theorem C10_witness :
    checkCondition ⟨CondType.price, none, CondOp.lt, 5, none⟩ 94 [100] = false :=
  C10_checkCondition_short_history _ 94 [100] rfl (by norm_num)

/-- Reading index `length - 2` of a list ending in two known elements gives
the second-to-last one. -/
theorem getAtI_penultimate (hs : List ℚ) (prev lastp : ℚ) :
    getAtI (hs ++ [prev, lastp]) (((hs ++ [prev, lastp]).length : ℤ) - 2) =
      some prev := by
  have hlen : (hs ++ [prev, lastp]).length = hs.length + 2 := by
    simp [List.length_append]
  rw [hlen]
  unfold getAtI
  rw [if_pos (by omega)]
  have hidx : (((hs.length + 2 : ℕ) : ℤ) - 2).toNat = hs.length := by omega
  rw [hidx, List.get?_append_right (Nat.le_refl _)]
  simp

/-- C2 (amended): for a price-type condition, `checkCondition` computes the
percent change between the current price and the *second-to-last* history
sample (which coincides with the last two history samples only when the
current price equals the last sample); `<` returns true exactly when that
change is below `-value` and `>` exactly when it is above `value`; with
`value = 5`, history `[100, 94]` and current price 94, the `<` condition
returns true.  (The nonzero hypothesis on the reference sample excludes the
division by zero that JavaScript would turn into `Infinity`/`NaN`.) -/
theorem C2_checkCondition_price (hs : List ℚ) (prev lastp cur v : ℚ)
    (ind : Option IndicatorKind) (tf : Option Timeframe) (hprev : prev ≠ 0) :
    (checkCondition ⟨CondType.price, ind, CondOp.lt, v, tf⟩ cur (hs ++ [prev, lastp])
        = decide ((cur - prev) / prev * 100 < -v)) ∧
    (checkCondition ⟨CondType.price, ind, CondOp.gt, v, tf⟩ cur (hs ++ [prev, lastp])
        = decide (v < (cur - prev) / prev * 100)) ∧
    checkCondition ⟨CondType.price, none, CondOp.lt, 5, none⟩ 94 [100, 94] = true := by
  refine ⟨?_, ?_, by norm_num [checkCondition, getAtI]⟩ <;>
    simp only [checkCondition, getAtI_penultimate hs prev lastp]

/-- C2 witness: the amended characterisation instantiated at the concrete
input of the claim. -/
theorem C2_witness :
    checkCondition ⟨CondType.price, none, CondOp.lt, 5, none⟩ 94
        ([] ++ [100, 94]) = decide (((94 : ℚ) - 100) / 100 * 100 < -5) :=
  (C2_checkCondition_price [] 100 94 94 5 none none (by norm_num)).1

/-- C2 counterexample: the claim as stated is false.  With history
`[100, 94]` the change between the last two history samples is `-6 < -5`, so
the claim predicts the `<` condition with `value = 5` to be true for every
current price; but with current price 200 the code compares against the
second-to-last sample and returns false. -/
theorem C2_claim_counterexample :
    checkCondition ⟨CondType.price, none, CondOp.lt, 5, none⟩ 200 [100, 94] = false ∧
    ((94 : ℚ) - 100) / 100 * 100 < -5 := by
  constructor
  · norm_num [checkCondition, getAtI]
  · norm_num

/-- C8: `calculateMACD` returns `macd = EMA(12) - EMA(26)`,
`signal = 0.9 * macd` and `histogram = macd - signal`; consequently
`checkCondition` for a MACD indicator condition returns true exactly when the
histogram is positive, equivalently when `EMA(12) > EMA(26)`, for every
condition operator and value. -/
theorem C8_MACD (prices : List ℚ) :
    (calculateMACD prices =
      ⟨calculateEMA prices 12 - calculateEMA prices 26,
        0.9 * (calculateEMA prices 12 - calculateEMA prices 26),
        (calculateEMA prices 12 - calculateEMA prices 26) -
          0.9 * (calculateEMA prices 12 - calculateEMA prices 26)⟩) ∧
    (0 < (calculateMACD prices).histogram ↔
      calculateEMA prices 26 < calculateEMA prices 12) ∧
    (∀ (op : CondOp) (v cur : ℚ) (tf : Option Timeframe),
      checkCondition ⟨CondType.indicator, some IndicatorKind.MACD, op, v, tf⟩
          cur prices =
        decide (calculateEMA prices 26 < calculateEMA prices 12)) := by
  have hhist : (calculateMACD prices).histogram =
      (calculateEMA prices 12 - calculateEMA prices 26) -
        (calculateEMA prices 12 - calculateEMA prices 26) * 0.9 := rfl
  have hiff : 0 < (calculateMACD prices).histogram ↔
      calculateEMA prices 26 < calculateEMA prices 12 := by
    rw [hhist]
    constructor <;> intro h <;> nlinarith
  refine ⟨?_, hiff, ?_⟩
  · simp only [calculateMACD, MACDResult.mk.injEq]
    refine ⟨trivial, by ring, by ring⟩
  · intro op v cur tf
    show decide (0 < (calculateMACD prices).histogram) = _
    exact decide_eq_decide.mpr hiff

/-- The last element of a nonempty replicated list is the replicated value. -/
theorem getLastD_replicate (n : ℕ) (c : ℚ) (hn : 0 < n) :
    (List.replicate n c).getLastD 0 = c := by
  induction n with
  | zero => omega
  | succ m ih =>
    cases m with
    | zero => rfl
    | succ k =>
      rw [List.replicate_succ, List.getLastD_cons]
      exact ih (by omega)

/-- `getLastD` of a nonempty list is its last element. -/
theorem getLastD_eq_getLast (l : List ℚ) (hne : l ≠ []) :
    l.getLastD 0 = l.getLast hne := by
  induction l with
  | nil => exact absurd rfl hne
  | cons x xs ih =>
    cases xs with
    | nil => rfl
    | cons y ys =>
      rw [List.getLastD_cons, List.getLast_cons (by simp)]
      exact ih (by simp)

/-- `calculateSMA` on a replicated list with enough samples returns the
replicated value. -/
theorem calculateSMA_replicate_of_le (c : ℚ) (k period : ℕ) (hp : 0 < period)
    (hk : period ≤ k) :
    calculateSMA (List.replicate k c) period = c := by
  unfold calculateSMA
  rw [if_neg (by simp [List.length_replicate]; omega)]
  rw [List.length_replicate, List.drop_replicate]
  have hkk : k - (k - period) = period := by omega
  rw [hkk, List.sum_replicate, nsmul_eq_mul]
  field_simp

/-- The EMA recurrence fixes the replicated value. -/
theorem foldl_ema_replicate (m : ℕ) (c mult : ℚ) :
    (List.replicate m c).foldl (fun ema p => (p - ema) * mult + ema) c = c := by
  induction m with
  | zero => rfl
  | succ i ih =>
    rw [List.replicate_succ, List.foldl_cons]
    have : (c - c) * mult + c = c := by ring
    rw [this, ih]

/-- C9: `calculateSMA` and `calculateEMA` both return exactly `c` on a
non-empty constant sequence `replicate n c` for every period of at least 1,
and both return the last element on any non-empty sequence shorter than the
period. -/
theorem C9_sma_ema_const (c : ℚ) (n periodC : ℕ) (hn : 0 < n) (hp : 0 < periodC)
    (prices : List ℚ) (periodF : ℕ) (hne : prices ≠ [])
    (hshort : prices.length < periodF) :
    calculateSMA (List.replicate n c) periodC = c ∧
    calculateEMA (List.replicate n c) periodC = c ∧
    calculateSMA prices periodF = prices.getLast hne ∧
    calculateEMA prices periodF = prices.getLast hne := by
  refine ⟨?_, ?_, ?_, ?_⟩
  · by_cases hlt : n < periodC
    · unfold calculateSMA
      rw [if_pos (by simpa using hlt)]
      exact getLastD_replicate n c hn
    · exact calculateSMA_replicate_of_le c n periodC hp (by omega)
  · by_cases hlt : n < periodC
    · unfold calculateEMA
      rw [if_pos (by simpa using hlt)]
      exact getLastD_replicate n c hn
    · unfold calculateEMA
      rw [if_neg (by simp [List.length_replicate]; omega)]
      rw [List.take_replicate, List.drop_replicate]
      have hmin : min periodC n = periodC := by omega
      rw [hmin, calculateSMA_replicate_of_le c periodC periodC hp (Nat.le_refl _)]
      exact foldl_ema_replicate (n - periodC) c _
  · unfold calculateSMA
    rw [if_pos hshort]
    exact getLastD_eq_getLast prices hne
  · unfold calculateEMA
    rw [if_pos hshort]
    exact getLastD_eq_getLast prices hne

/-- C9 witness: constant sequence `[5, 5, 5]` with period 2, and the
two-sample fallback `[3, 7]` with period 5. -/
theorem C9_witness :
    calculateSMA (List.replicate 3 5) 2 = 5 ∧
    calculateEMA (List.replicate 3 5) 2 = 5 ∧
    calculateSMA [3, 7] 5 = List.getLast [3, 7] (by simp) ∧
    calculateEMA [3, 7] 5 = List.getLast [3, 7] (by simp) :=
  C9_sma_ema_const 5 3 2 (by norm_num) (by norm_num) [3, 7] 5 (by simp) (by norm_num)

/-- C3: `calculateRSI` always returns a value in `[0, 100]`; it returns
exactly 50 when the sequence has fewer than `period + 1` samples; with enough
samples it returns exactly 100 when the average loss over the last `period`
deltas is 0, and otherwise `100 - 100 / (1 + avgGain / avgLoss)` rounded to
two decimal places.  (Periods of at least 1; the source's `period = 0` would
divide by zero.) -/
theorem C3_calculateRSI (prices : List ℚ) (period : ℕ) (hp : 0 < period) :
    (0 ≤ calculateRSI prices period ∧ calculateRSI prices period ≤ 100) ∧
    (prices.length < period + 1 → calculateRSI prices period = 50) ∧
    (period + 1 ≤ prices.length →
      (rsiAvgLoss prices period = 0 → calculateRSI prices period = 100) ∧
      (rsiAvgLoss prices period ≠ 0 →
        calculateRSI prices period =
          jsRound2 (100 - 100 /
            (1 + rsiAvgGain prices period / rsiAvgLoss prices period)))) := by
  have hg : 0 ≤ rsiAvgGain prices period := by
    unfold rsiAvgGain
    exact div_nonneg (sum_filter_pos_nonneg _) (by positivity)
  have hl0 : 0 ≤ rsiAvgLoss prices period := by
    unfold rsiAvgLoss
    exact div_nonneg (sum_map_abs_nonneg _) (by positivity)
  refine ⟨?_, ?_, ?_⟩
  · by_cases hlen : prices.length < period + 1
    · simp only [calculateRSI, if_pos hlen]
      norm_num
    · simp only [calculateRSI, if_neg hlen]
      by_cases hz : rsiAvgLoss prices period = 0
      · rw [if_pos hz]
        norm_num
      · rw [if_neg hz]
        have hlpos : 0 < rsiAvgLoss prices period := lt_of_le_of_ne hl0 (Ne.symm hz)
        have hb := rsiFormula_bounds (rsiAvgGain prices period)
          (rsiAvgLoss prices period) hg hlpos
        exact jsRound2_mem_Icc _ hb.1 hb.2
  · intro hlen
    simp only [calculateRSI, if_pos hlen]
  · intro hlen
    have hnlt : ¬ prices.length < period + 1 := by omega
    constructor
    · intro hz
      simp only [calculateRSI, if_neg hnlt, if_pos hz]
    · intro hz
      simp only [calculateRSI, if_neg hnlt, if_neg hz]

/-- C3 witness: the empty price list with the default period 14. -/
theorem C3_witness :
    0 ≤ calculateRSI [] 14 ∧ calculateRSI [] 14 ≤ 100 ∧ calculateRSI [] 14 = 50 :=
  ⟨(C3_calculateRSI [] 14 (by norm_num)).1.1,
   (C3_calculateRSI [] 14 (by norm_num)).1.2,
   (C3_calculateRSI [] 14 (by norm_num)).2.1 (by simp)⟩

/-- C4: `calculatePerformance` pairs trades by index parity; a pair
contributes `pnl = (sellPrice - buyPrice) * buyAmount` only when it is
literally `(buy, sell)` in that order; a trailing unpaired trade is ignored;
`winRate = 100 * (pairs with positive pnl) / floor(length / 2)` (the source's
zero-pair guard agrees with this formula, `x / 0 = 0` in `ℚ`); the two-trade
ledger `[buy at 100 amount 1, sell at 110 amount 1]` yields `totalPnL = 10`
and `winRate = 100`. -/
theorem C4_calculatePerformance (name : String) (trades : List Trade) :
    (calculatePerformance name trades).totalPnL = (pairPnLs trades).sum ∧
    (calculatePerformance name trades).winRate =
      100 * (((pairPnLs trades).filter (fun p => decide (0 < p))).length : ℚ) /
        ((trades.length / 2 : ℕ) : ℚ) ∧
    (∀ b s rest, pairPnLs (b :: s :: rest) =
      (if b.type = TradeType.buy ∧ s.type = TradeType.sell
        then [(s.price - b.price) * b.amount] else []) ++ pairPnLs rest) ∧
    (∀ t, pairPnLs [t] = ([] : List ℚ)) ∧
    (calculatePerformance "demo"
      [⟨"t1", "demo", 0, TradeType.buy, "SOL/USDC", 100, 1, 100, none,
          TradeStatus.executed⟩,
       ⟨"t2", "demo", 1, TradeType.sell, "SOL/USDC", 110, 1, 110, none,
          TradeStatus.executed⟩]).totalPnL = 10 ∧
    (calculatePerformance "demo"
      [⟨"t1", "demo", 0, TradeType.buy, "SOL/USDC", 100, 1, 100, none,
          TradeStatus.executed⟩,
       ⟨"t2", "demo", 1, TradeType.sell, "SOL/USDC", 110, 1, 110, none,
          TradeStatus.executed⟩]).winRate = 100 := by
  refine ⟨?_, ?_, fun b s rest => rfl, fun t => rfl, ?_, ?_⟩
  · by_cases h0 : trades.length = 0
    · have he : trades = [] := List.length_eq_zero.mp h0
      subst he
      rfl
    · unfold calculatePerformance
      rw [if_neg h0]
  · by_cases h0 : trades.length = 0
    · have he : trades = [] := List.length_eq_zero.mp h0
      subst he
      show (0 : ℚ) = 100 * _ / _
      norm_num [pairPnLs]
    · unfold calculatePerformance
      rw [if_neg h0]
      dsimp only
      by_cases hc : 0 < trades.length / 2
      · rw [if_pos hc]
        have hcq : ((trades.length / 2 : ℕ) : ℚ) ≠ 0 := by
          exact_mod_cast Nat.pos_iff_ne_zero.mp hc
        field_simp
        ring
      · rw [if_neg hc]
        have hcz : trades.length / 2 = 0 := by omega
        rw [hcz]
        norm_num
  · norm_num [calculatePerformance, pairPnLs]
  · norm_num [calculatePerformance, pairPnLs]

/-- The inner loop of `analyzePositions` emits at most one recommendation per
position. -/
theorem recommendForPosition_length_le (ys rs : List ProtocolYield)
    (p : Position) : (recommendForPosition ys rs p).length ≤ 1 := by
  unfold recommendForPosition
  rcases hf : ys.find? (fun y => y.protocol == p.protocol && y.pool == p.pool)
    with _ | cy
  · rw [hf]
    simp
  · rw [hf]
    rcases hg : rs.find? (fun t =>
        decide (5 < t.apy - p.apy) && (t.protocol != p.protocol)) with _ | t
    · rw [hg]
      simp
    · rw [hg]
      simp

/-- Every recommendation the inner loop emits moves 50% of the position to a
different protocol with an APY more than 5 points higher. -/
theorem recommendForPosition_spec (ys rs : List ProtocolYield) (p : Position)
    (rec : RebalanceRecommendation) (h : rec ∈ recommendForPosition ys rs p) :
    rec.src = p ∧ rec.target.protocol ≠ p.protocol ∧
      p.apy + 5 < rec.target.apy ∧ rec.amount = p.amount * 0.5 := by
  unfold recommendForPosition at h
  rcases hfind : ys.find? (fun y => y.protocol == p.protocol && y.pool == p.pool)
    with _ | cy
  · rw [hfind] at h
    simp at h
  · rw [hfind] at h
    rcases hrank : rs.find? (fun t =>
        decide (5 < t.apy - p.apy) && (t.protocol != p.protocol)) with _ | t
    · rw [hrank] at h
      simp at h
    · rw [hrank] at h
      simp only [List.mem_singleton] at h
      subst h
      have hpred := List.find?_some hrank
      simp only [Bool.and_eq_true, decide_eq_true_eq, bne_iff_ne] at hpred
      exact ⟨rfl, hpred.2, by linarith [hpred.1], rfl⟩

/-- C5: every `RebalanceRecommendation` emitted by `analyzePositions` targets
a protocol different from the source position's, with an APY exceeding the
position's by more than 5 percentage points, and moves 50% of the held
amount; the output is one inner-loop pass per position, each emitting at most
one recommendation. -/
theorem C5_analyzePositions (positions : List Position) (tol : RiskTolerance) :
    analyzePositions positions tol =
      positions.flatMap (recommendForPosition getAllYields
        (sortDescBy calculateRiskAdjustedReturn
          (getAllYields.filter (fun y => (targetRisks tol).contains y.risk)))) ∧
    (∀ p : Position, (recommendForPosition getAllYields
        (sortDescBy calculateRiskAdjustedReturn
          (getAllYields.filter (fun y => (targetRisks tol).contains y.risk)))
        p).length ≤ 1) ∧
    (∀ rec ∈ analyzePositions positions tol,
      rec.target.protocol ≠ rec.src.protocol ∧
      rec.src.apy + 5 < rec.target.apy ∧
      rec.amount = rec.src.amount * 0.5) := by
  refine ⟨rfl, fun p => recommendForPosition_length_le _ _ p, ?_⟩
  intro rec hrec
  rw [show analyzePositions positions tol =
      positions.flatMap (recommendForPosition getAllYields
        (sortDescBy calculateRiskAdjustedReturn
          (getAllYields.filter (fun y => (targetRisks tol).contains y.risk))))
      from rfl] at hrec
  obtain ⟨p, _, hmem⟩ := List.mem_flatMap.mp hrec
  obtain ⟨hsrc, hproto, hapy, hamt⟩ := recommendForPosition_spec _ _ p rec hmem
  rw [← hsrc] at hproto hapy hamt
  exact ⟨hproto, hapy, hamt⟩

/-- C5 witness: a Marinade mSOL position under conservative tolerance is
recommended a move of 50% into Kamino USDC Lend (APY 18.7 vs 7.8). -/
theorem C5_witness :
    let recX : RebalanceRecommendation :=
      ⟨⟨"Marinade", "mSOL Stake Pool", 100, 1000, 7.8⟩,
       ⟨"Kamino", "USDC Lend", 18.7, 156000000, RiskLevel.low, "USDC",
         "Kamino9KBPUhzYnpGZcJH4gYX8p6fU7WYDh8GvLPqK"⟩, 50, 109⟩
    recX.target.protocol ≠ recX.src.protocol ∧
      recX.src.apy + 5 < recX.target.apy ∧
      recX.amount = recX.src.amount * 0.5 :=
  (C5_analyzePositions [⟨"Marinade", "mSOL Stake Pool", 100, 1000, 7.8⟩]
      RiskTolerance.conservative).2.2 _ (by
    simp only [analyzePositions, analyzePositionsWith, getAllYields,
      fetchJupiterYields, fetchKaminoYields, fetchMarinadeYields,
      fetchRaydiumYields, targetRisks]
    norm_num [sortDescBy, insertRankedBy, calculateRiskAdjustedReturn,
      calculateRiskScore, riskMap, min_def, max_def]
    simp [recommendForPosition, List.find?]
    norm_num)

/-- One `updatePriceHistory` call on the tracked asset appends and keeps the
200-suffix. -/
theorem updatePriceHistory_self (s : String → List ℚ) (asset : String) (p : ℚ)
    (h : (s asset).length ≤ 200) :
    updatePriceHistory s asset p asset = lastN 200 (s asset ++ [p]) := by
  unfold updatePriceHistory
  rw [if_pos rfl]
  by_cases hlen : 200 < (s asset ++ [p]).length
  · rw [if_pos hlen]
    have hl : (s asset ++ [p]).length - 200 = 1 := by
      simp only [List.length_append, List.length_singleton] at hlen ⊢
      omega
    unfold lastN
    rw [hl, List.drop_one]
  · rw [if_neg hlen]
    exact (lastN_of_le _ _ (by omega)).symm

/-- `updatePriceHistory` leaves other assets untouched. -/
theorem updatePriceHistory_other (s : String → List ℚ) (asset : String)
    (p : ℚ) (a : String) (hne : a ≠ asset) :
    updatePriceHistory s asset p a = s a := by
  unfold updatePriceHistory
  rw [if_neg hne]

/-- `updatePriceHistory` preserves the 200-sample bound on every asset. -/
theorem updatePriceHistory_length (s : String → List ℚ) (asset : String)
    (p : ℚ) (h : ∀ b, (s b).length ≤ 200) :
    ∀ a, ((updatePriceHistory s asset p) a).length ≤ 200 := by
  intro a
  by_cases ha : a = asset
  · subst ha
    rw [updatePriceHistory_self s a p (h a)]
    exact length_lastN_le _ _
  · rw [updatePriceHistory_other s asset p a ha]
    exact h a

/-- Running a call sequence from any bounded state leaves each asset with the
200-suffix of its old history plus its pushed prices, in order. -/
theorem runUpdates_char (calls : List (String × ℚ)) :
    ∀ (s : String → List ℚ), (∀ b, (s b).length ≤ 200) →
      ∀ a, runUpdates s calls a = lastN 200 (s a ++ pricesFor a calls) := by
  induction calls with
  | nil =>
    intro s hs a
    unfold runUpdates pricesFor
    simp only [List.filter_nil, List.map_nil, List.append_nil]
    exact (lastN_of_le _ _ (hs a)).symm
  | cons c cs ih =>
    intro s hs a
    unfold runUpdates
    rw [ih _ (updatePriceHistory_length s c.1 c.2 hs)]
    by_cases ha : a = c.1
    · subst ha
      rw [updatePriceHistory_self s c.1 c.2 (hs c.1), lastN_lastN_append]
      have hpf : pricesFor c.1 (c :: cs) = c.2 :: pricesFor c.1 cs := by
        unfold pricesFor
        rw [List.filter_cons_of_pos (by simp)]
        simp
      rw [hpf]
      simp [List.append_assoc]
    · rw [updatePriceHistory_other s c.1 c.2 a ha]
      have hpf : pricesFor a (c :: cs) = pricesFor a cs := by
        unfold pricesFor
        rw [List.filter_cons_of_neg (by simp [Ne.symm ha])]
      rw [hpf]

/-- C7: after any sequence of `updatePriceHistory` calls from the initial
empty state, every asset's history is exactly the 200 most recent prices
pushed for that asset, in arrival order; in particular its length never
exceeds 200, each call appends at the end, and on overflow the oldest sample
is evicted (FIFO). -/
theorem C7_priceHistory_bound (calls : List (String × ℚ)) (a : String) :
    runUpdates initPriceHistory calls a = lastN 200 (pricesFor a calls) ∧
    (runUpdates initPriceHistory calls a).length ≤ 200 := by
  have h := runUpdates_char calls initPriceHistory
    (fun b => by simp [initPriceHistory]) a
  have h2 : runUpdates initPriceHistory calls a = lastN 200 (pricesFor a calls) := by
    simpa [initPriceHistory] using h
  exact ⟨h2, h2 ▸ length_lastN_le 200 _⟩

set_option maxRecDepth 8000 in
/-- C1 counterexample: the claim as stated is false on the code.  On the
exact input the parser does return `asset = "SOL/USDC"` and an entry with
condition `<`, but the entry's indicator is `none` (not RSI), its value is
100 (not 30) and `maxPosition` is 30 (not 500): the RSI regexes require the
comparator keyword to follow `rsi` directly, which "rsi drops below" does
not, and the optional `\$` lets the position regex capture the first number
in the text. -/
theorem C1_claim_counterexample :
    ¬ (let p := parseStrategy
        "Buy SOL when RSI drops below 30, sell when it crosses 70, max position $500"
       p.asset = "SOL/USDC" ∧ p.entry.indicator = some IndicatorKind.RSI ∧
         p.entry.condition = CondOp.lt ∧ p.entry.value = 30 ∧
         p.maxPosition = 500) := by
  intro h
  exact absurd h.2.1 (by decide)

set_option maxRecDepth 8000 in
/-- C1 (amended): `parseStrategy` on the exact input returns
`asset = "SOL/USDC"` and an entry with condition `<`, but the entry is the
default price condition (`type = price`, no indicator, value 100) since none
of the RSI regexes match "rsi drops below 30" and the text carries no `N%`
token, and `maxPosition = 30`, the first number in the text; the full result
also has the default exit (`price`, `>`, 100), `riskPercent = 10`, market
execution and no stop loss or take profit. -/
theorem C1_parseStrategy_example :
    parseStrategy
        "Buy SOL when RSI drops below 30, sell when it crosses 70, max position $500" =
      { name := "SOL RSI Strategy"
        asset := "SOL/USDC"
        entry := ⟨CondType.price, none, CondOp.lt, 100, some Timeframe.m15⟩
        exit := ⟨CondType.price, none, CondOp.gt, 100, some Timeframe.m15⟩
        maxPosition := 30
        riskPercent := 10
        executionType := ExecutionType.market
        stopLoss := none
        takeProfit := none } := by
  decide
